import Mathlib

/-!
Verification of the caddy2-html-injection-plugin response rewriter.

Go strings are modelled as `List Char`; for the ASCII data handled by the
plugin, Go byte indices coincide with character indices.  The Go standard
library string operations used by the source (`strings.Index`,
`strings.Contains`, `strings.Split`, `strings.Replace`, `strings.TrimSpace`,
`strings.ToLower`, `strings.LastIndex`, `strings.HasSuffix`) are given
executable models below, and the functions of `injection.go` and `filter.go`
are translated on top of them.
-/

set_option maxRecDepth 8192

namespace HtmlInjection

/-- Characters of a string literal. -/
def str (s : String) : List Char := s.data

/-- `prefB pat s` is true when `pat` is an initial segment of `s`
(Go `strings.HasPrefix s pat`). -/
def prefB : List Char → List Char → Bool
  | [], _ => true
  | _ :: _, [] => false
  | a :: as, b :: bs => a == b && prefB as bs

/-- `suffB pat s` is true when `pat` is a final segment of `s`
(Go `strings.HasSuffix s pat`). -/
def suffB (pat s : List Char) : Bool :=
  prefB pat.reverse s.reverse

/-- Index of the leftmost occurrence of `pat` in `s`, as computed by Go
`strings.Index` (`none` models Go's `-1`). -/
def firstIndex : List Char → List Char → Option Nat
  | [], pat => if prefB pat [] then some 0 else none
  | c :: t, pat =>
    if prefB pat (c :: t) then some 0 else (firstIndex t pat).map (· + 1)

/-- Go `strings.Contains s pat` (defined in Go as `Index(s, pat) >= 0`). -/
def goContains (s pat : List Char) : Bool :=
  (firstIndex s pat).isSome

/-- Go `strings.Index` with the `-1` sentinel. -/
def goIndex (s pat : List Char) : Int :=
  match firstIndex s pat with
  | none => -1
  | some i => (i : Int)

/-- Go `strings.LastIndex` with the `-1` sentinel: index of the rightmost
occurrence, found as the leftmost occurrence in the reversed string. -/
def goLastIndex (s pat : List Char) : Int :=
  match firstIndex s.reverse pat.reverse with
  | none => -1
  | some i => ((s.length - pat.length - i : Nat) : Int)

/-- Go `strings.Replace(s, old, new, 1)`: replace the leftmost occurrence.
For `old = []` Go inserts `new` at the start, which the `firstIndex`
result `some 0` reproduces. -/
def goReplace1 (s old new : List Char) : List Char :=
  match firstIndex s old with
  | none => s
  | some i => List.take i s ++ new ++ List.drop (i + old.length) s

/-- Fuel-driven helper for `goReplaceAll`; the fuel `s.length` is enough
because each step consumes at least one character of `s`. -/
def goReplaceAllAux : Nat → List Char → List Char → List Char → List Char
  | 0, s, _, _ => s
  | Nat.succ fuel, s, old, new =>
    match firstIndex s old with
    | none => s
    | some i =>
      List.take i s ++ new ++ goReplaceAllAux fuel (List.drop (i + old.length) s) old new

/-- Go `strings.ReplaceAll(s, old, new)` for a nonempty `old` (both call
sites in the source pass nonempty literals; for empty `old` Go would
intersperse `new` between runes, a case never exercised). -/
def goReplaceAll (s old new : List Char) : List Char :=
  if old.isEmpty then s else goReplaceAllAux s.length s old new

/-- Fuel-driven helper for `goSplit`; the fuel `s.length` is enough because
each step consumes at least `sep.length ≥ 1` characters of `s`. -/
def goSplitAux : Nat → List Char → List Char → List (List Char)
  | 0, s, _ => [s]
  | Nat.succ fuel, s, sep =>
    match firstIndex s sep with
    | none => [s]
    | some i => List.take i s :: goSplitAux fuel (List.drop (i + sep.length) s) sep

/-- Go `strings.Split(s, sep)`: pieces of `s` between the non-overlapping
leftmost occurrences of `sep`.  For empty `sep` Go explodes the string
into single runes. -/
def goSplit (s sep : List Char) : List (List Char) :=
  if sep.isEmpty then s.map (fun c => [c]) else goSplitAux s.length s sep

/-- Whitespace characters recognised by Go `unicode.IsSpace` in the ASCII
range (the only range arising for CSP header values). -/
def isGoSpace (c : Char) : Bool :=
  c == ' ' || c == '\t' || c == '\n' || c == '\x0b' || c == '\x0c' || c == '\r'

/-- Go `strings.TrimSpace`. -/
def goTrimSpace (s : List Char) : List Char :=
  ((s.dropWhile isGoSpace).reverse.dropWhile isGoSpace).reverse

/-- Go `strings.ToLower`, restricted to the ASCII mapping (sufficient for
the HTML/CSP text the plugin scans). -/
def goToLower (s : List Char) : List Char :=
  s.map Char.toLower

/-- Concatenation of a list of strings. -/
def joinAll : List (List Char) → List Char
  | [] => []
  | l :: ls => l ++ joinAll ls

/-- `extractValueForDirective` from `injection.go`: the text between the
first occurrence of `name ++ " "` and the next `;`, trimmed; `[]` when the
directive is absent. -/
def extractValueForDirective (csp name : List Char) : List Char :=
  if ¬ goContains csp (name ++ str " ") then []
  else
    goTrimSpace
      (List.headD (goSplit (List.getD (goSplit csp (name ++ str " ")) 1 []) (str ";")) [])

/-- The synthesized value assigned to `defaultSrc` by `transformCSP` when the
policy has no usable `default-src`. -/
def defaultSrcSynth : List Char :=
  str "'self' https: data: blob: 'unsafe-eval' 'unsafe-inline'"

/-- `fmt.Sprintf("'nonce-%s' 'unsafe-inline'", i.cspNonce)` from
`transformCSP`. -/
def cspSrcArg (cspNonce : List Char) : List Char :=
  str "'nonce-" ++ cspNonce ++ str "' 'unsafe-inline'"

/-- The directive-rewriting block of `transformCSP`, which the source spells
out twice, once with `name = "script-src"` and once with
`name = "style-src"`. -/
def handleSrcDirective (name cspNonce defaultSrc csp : List Char) : List Char :=
  if goContains csp (name ++ str " ") then
    if ¬ goContains (extractValueForDirective csp name) (str "'unsafe-inline'") then
      goReplace1 csp (name ++ str " ") (name ++ str " " ++ cspSrcArg cspNonce ++ str " ")
    else csp
  else
    let cspSrcArgFinal :=
      if goContains defaultSrc (str "'unsafe-inline'") then [] else cspSrcArg cspNonce
    csp ++ str "; " ++ name ++ str " " ++ defaultSrc ++ str " " ++ cspSrcArgFinal

/-- `transformCSP` from `injection.go`. -/
def transformCSP (cspNonce csp : List Char) : List Char :=
  let defaultSrc0 := extractValueForDirective csp (str "default-src")
  let defaultSrc := if defaultSrc0.length = 0 then defaultSrcSynth else defaultSrc0
  let csp1 :=
    if defaultSrc0.length = 0 then str "default-src " ++ defaultSrcSynth ++ str "; " ++ csp
    else csp
  let csp2 := handleSrcDirective (str "script-src") cspNonce defaultSrc csp1
  handleSrcDirective (str "style-src") cspNonce defaultSrc csp2

/-- `HandleCSPForText` from `injection.go`; `\x7b\x7bcsp-nonce\x7d\x7d` spells
the literal nonce placeholder in braces. -/
def HandleCSPForText (cspNonce text : List Char) : List Char :=
  if cspNonce.length = 0 then
    goReplaceAll text (str " nonce=\"\x7b\x7bcsp-nonce\x7d\x7d\"") []
  else
    goReplaceAll text (str "\x7b\x7bcsp-nonce\x7d\x7d") cspNonce

/-- `nonNegativeMin` from `injection.go` (`math.MaxInt32` start value, `found`
flag, values equal to `-1` skipped). -/
def nonNegativeMin (is : List Int) : Int :=
  let r := is.foldl
    (fun acc i => if acc.1 > i ∧ i ≠ -1 then (i, true) else acc)
    ((2147483647 : Int), false)
  if r.2 then r.1 else -1

/-- The constant `metaTag` from `injection.go`. -/
def metaTag : List Char := str "<meta "

/-- The constant the source builds from `httpEquivPrefix` for the meta CSP
tag search (its name in the source ends in the word CSPPrefix). -/
def metaCSPPat : List Char := str "http-equiv=\"content-security-policy\""

/-- The constant the source calls contentPrefix. -/
def contentAttrPat : List Char := str "content=\""

/-- The constant `metaEnd` from `injection.go`. -/
def metaEnd : List Char := str "</meta>"

/-- `handleCSPForLine` from `injection.go`: the rewritten line and the updated
`hasSeenClosingHead` latch.  The Go `switch endIndex` tries its cases in
source order (`-1`, `endIndexMetaEnd`, `endIndexGtImplClose`) and its
`default: fallthrough` branch runs the `case -1` body, returning the line;
the `goto end` jumps become the shared `(…, endSeen)` results.  In the
removal branch Go would panic if `strings.LastIndex` returned `-1`
(`Int.toNat` clamps that case to 0 here); no theorem below relies on it. -/
def handleCSPForLine (cspNonce : List Char) (hasSeenClosingHead : Bool)
    (line : List Char) : List Char × Bool :=
  if cspNonce.length = 0 then (line, hasSeenClosingHead)
  else if hasSeenClosingHead then (line, hasSeenClosingHead)
  else
    let lowerLine := goToLower line
    let httpEquivIndex := goIndex lowerLine metaCSPPat
    let closingHeadIndex := goIndex lowerLine (str "</head>")
    if httpEquivIndex > closingHeadIndex ∧ closingHeadIndex ≠ -1 then
      (line, true)
    else
      let endSeen := closingHeadIndex ≠ -1
      if httpEquivIndex ≥ (metaTag.length : Int) then
        let fullTagToEnd := List.drop httpEquivIndex.toNat line
        let endIndexSlashClose := goIndex fullTagToEnd (str "/>")
        let endIndexMetaEnd := goIndex fullTagToEnd metaEnd
        let endIndexGtImplClose := goIndex fullTagToEnd (str ">")
        let endIndex :=
          nonNegativeMin [endIndexSlashClose, endIndexMetaEnd, endIndexGtImplClose]
        let body := fun (endSuffixLen : Nat) =>
          let fullTag := List.take endIndex.toNat fullTagToEnd
          match firstIndex fullTag contentAttrPat with
          | none => (line, endSeen)
          | some fullContentAttrStartIndex =>
            let contentAttrToEnd :=
              List.drop (fullContentAttrStartIndex + contentAttrPat.length) fullTag
            match firstIndex contentAttrToEnd (str "\"") with
            | none => (line, endSeen)
            | some contentAttrEndIndex =>
              let contentAttrValue := List.take contentAttrEndIndex contentAttrToEnd
              if contentAttrValue.length = 0 then (line, endSeen)
              else if goContains contentAttrValue (str "default-src") then
                let goodCsp := transformCSP cspNonce contentAttrValue
                let newTag :=
                  str "http-equiv=\"content-security-policy\" content=\"" ++ goodCsp ++
                    str "\" "
                (goReplace1 line fullTag newTag, endSeen)
              else
                let startIdx :=
                  (goLastIndex (List.take (httpEquivIndex.toNat + 1) line) metaTag).toNat
                let stopIdx := endIndex.toNat + httpEquivIndex.toNat + endSuffixLen
                let fullTagEndToEnd := List.take (stopIdx - startIdx) (List.drop startIdx line)
                (goReplace1 line fullTagEndToEnd [], endSeen)
        if endIndex = -1 then (line, hasSeenClosingHead)
        else if endIndex = endIndexMetaEnd then body metaEnd.length
        else if endIndex = endIndexGtImplClose then body 1
        else (line, hasSeenClosingHead)
      else (line, endSeen)

/-- The per-response environment the line handlers read: response
content-type header, the compiled content-type regex (abstracted as a
predicate), the configured marker and payload path, and the outcome
`os.ReadFile` produces for that path (`none` models a read error). -/
structure Env where
  contentTypeHeader : List Char
  rxMatch : List Char → Bool
  before : List Char
  injectPath : List Char
  injectFile : Option (List Char)

/-- `textToInject` from `injection.go`: the payload text together with the
error flag (`true` when `os.ReadFile` failed; Go then returns the error and
empty content). -/
def textToInject (env : Env) : List Char × Bool :=
  if env.injectPath.length = 0 then ([], false)
  else
    match env.injectFile with
    | none => ([], true)
    | some content => (content, false)

/-- `HandleLine` from `injection.go`; the second component is the returned
`error`, which is `none` (Go `nil`) on every path. -/
def HandleLine (env : Env) (cspNonce line : List Char) : List Char × Option Unit :=
  if goContains line env.before then
    let t := textToInject env
    let textToInj := HandleCSPForText cspNonce t.1
    if t.2 then (line, none)
    else (goReplace1 line env.before (textToInj ++ env.before), none)
  else (line, none)

/-- `ContentTypeStatus` from `injection.go`. -/
inductive ContentTypeStatus where
  | toBeChecked
  | noMatch
  | matches
deriving DecidableEq

/-- The mutable fields of `InjectedWriter`, together with the bytes forwarded
to the original writer. -/
structure IWState where
  contentTypeStatus : ContentTypeStatus
  recordedHTML : List Char
  outBytes : List Char
  cspNonce : List Char
  hasSeenClosingHead : Bool
deriving DecidableEq

/-- The line-reassembly step of `InjectedWriter.Write`: appending the incoming
bytes to `RecordedHTML` and splitting on `'\n'`, this returns the sequence
of `line` values the loop hands to the handlers and the fragment the loop
writes back into the buffer.  When the accumulated data ends in `'\n'`,
`isLastLineComplete` is true and the loop runs over every split element,
including the final empty one. -/
def writeEmit (buf input : List Char) : List (List Char) × List Char :=
  let recordedString := buf ++ input
  if recordedString.contains '\n' then
    let lines := goSplit recordedString (str "\n")
    if suffB (str "\n") recordedString then (lines, [])
    else (lines.dropLast, lines.getLastD [])
  else ([], recordedString)

/-- The body of the `Write` loop for the processed lines: `handleCSPForLine`
then `LineHandler.HandleLine`, with `"\n"` re-appended and the result
forwarded to the original writer. -/
def processLines (env : Env) (cspNonce : List Char) :
    List (List Char) → Bool → List Char → Bool × List Char
  | [], seen, out => (seen, out)
  | l :: ls, seen, out =>
    let c := handleCSPForLine cspNonce seen l
    let h := HandleLine env cspNonce c.1
    processLines env cspNonce ls c.2 (out ++ h.1 ++ [('\n' : Char)])

/-- `InjectedWriter.Write` as a state transformer (downstream writes succeed,
and `HandleLine` never returns an error, so no error path arises). -/
def writeStep (env : Env) (s : IWState) (bs : List Char) : IWState :=
  if s.contentTypeStatus = ContentTypeStatus.noMatch then
    { s with outBytes := s.outBytes ++ bs }
  else if s.contentTypeStatus = ContentTypeStatus.toBeChecked ∧
      ¬ env.rxMatch (List.headD (goSplit env.contentTypeHeader (str ";")) []) then
    { s with
      contentTypeStatus := ContentTypeStatus.noMatch
      outBytes := s.outBytes ++ bs }
  else
    let e := writeEmit s.recordedHTML bs
    let p := processLines env s.cspNonce e.1 s.hasSeenClosingHead s.outBytes
    { contentTypeStatus := ContentTypeStatus.matches
      recordedHTML := e.2
      outBytes := p.2
      cspNonce := s.cspNonce
      hasSeenClosingHead := p.1 }

/-- `InjectedWriter.Flush`: the leftover fragment is run through the two
handlers and forwarded without a trailing newline. -/
def flushStep (env : Env) (s : IWState) : IWState :=
  if s.recordedHTML.length = 0 then s
  else
    let c := handleCSPForLine s.cspNonce s.hasSeenClosingHead s.recordedHTML
    let h := HandleLine env s.cspNonce c.1
    { s with outBytes := s.outBytes ++ h.1, hasSeenClosingHead := c.2 }

/-- The `line` sequences produced by a series of `Write` calls starting from
an empty buffer, together with the final pending fragment. -/
def emitRun (writes : List (List Char)) : List (List Char) × List Char :=
  writes.foldl
    (fun acc w =>
      let e := writeEmit acc.2 w
      (acc.1 ++ e.1, e.2))
    ([], [])

/-- The response-header fields read and written by `WriteHeader` and
`HandleCSP`. -/
structure RespHeaders where
  csp : List Char
  upgrade : List Char
  hasContentLength : Bool
deriving DecidableEq

/-- `HandleCSP` from `injection.go`.  `freshNonce` is the value a successful
`GenerateRandomStringURLSafe(6)` call returns; the result is the updated
header set and the updated `cspNonce` field. -/
def HandleCSPfn (freshNonce : List Char) (h : RespHeaders) (cspNonce : List Char) :
    RespHeaders × List Char :=
  if (goTrimSpace h.csp).length ≠ 0 then
    ({ h with csp := transformCSP freshNonce h.csp }, freshNonce)
  else (h, cspNonce)

/-- `Middleware.ShouldBypassForResponse` from `injection.go`. -/
def ShouldBypassForResponse (h : RespHeaders) : Bool :=
  h.upgrade.length > 0

/-- `InjectedWriter.WriteHeader`: the final header set, the final `cspNonce`,
and the status code forwarded to the original writer. -/
def WriteHeaderFn (freshNonce : List Char) (h : RespHeaders) (cspNonce : List Char)
    (statusCode : Nat) : RespHeaders × List Char × Nat :=
  if statusCode < 200 ∨ statusCode ≥ 600 ∨ ShouldBypassForResponse h then
    (h, cspNonce, statusCode)
  else
    let r := HandleCSPfn freshNonce h cspNonce
    ({ r.1 with hasContentLength := false }, r.2, statusCode)

/-- One effect of a `CappedSizeRecorder` on the wrapped `http.ResponseWriter`:
the header flush (recorded header fields and status code) or a body
write. -/
inductive OutEvt where
  | hdrs (headerFields : List (List Char × List Char)) (code : Nat)
  | chunk (bs : List Char)
deriving DecidableEq

/-- State of a `CappedSizeRecorder` from `filter.go`, together with the trace
of effects on the wrapped writer. -/
structure CSRState where
  overflowed : Bool
  recHeaders : List (List Char × List Char)
  recCode : Nat
  recBody : List Char
  outEvts : List OutEvt
deriving DecidableEq

/-- `CappedSizeRecorder.Flush`: `FlushHeaders` (copy the recorded header
fields, forward the recorded status code) followed by `io.Copy`, which
drains the recorded body and calls `Write` on the wrapped writer only when
the body is nonempty. -/
def csrFlush (c : CSRState) : CSRState :=
  { c with
    outEvts := c.outEvts ++ [OutEvt.hdrs c.recHeaders c.recCode] ++
      (if c.recBody.isEmpty then [] else [OutEvt.chunk c.recBody])
    recBody := [] }

/-- `CappedSizeRecorder.Write` from `filter.go`. -/
def csrWrite (cap : Nat) (c : CSRState) (b : List Char) : CSRState :=
  let c :=
    if ¬ c.overflowed ∧ b.length + c.recBody.length > cap then
      csrFlush { c with overflowed := true }
    else c
  if c.overflowed then { c with outEvts := c.outEvts ++ [OutEvt.chunk b] }
  else { c with recBody := c.recBody ++ b }

/-- A `CappedSizeRecorder` right after `NewCappedSizeRecorder` followed by a
`WriteHeader` call that recorded status `code` and header fields `hs`. -/
def freshCSR (hs : List (List Char × List Char)) (code : Nat) : CSRState :=
  { overflowed := false, recHeaders := hs, recCode := code, recBody := [], outEvts := [] }

/-- Folding `CappedSizeRecorder.Write` over a sequence of writes. -/
def csrRun (cap : Nat) (c : CSRState) (ws : List (List Char)) : CSRState :=
  ws.foldl (csrWrite cap) c

/-- Middleware and environment used by the C1 evaluation: matching content
type, marker `</body>`, no payload configured. -/
def envC1 : Env :=
  { contentTypeHeader := str "text/html", rxMatch := fun _ => true,
    before := str "</body>", injectPath := [], injectFile := none }

/-- Writer state at the start of a matched-content-type response with no CSP
nonce generated. -/
def s0C1 : IWState :=
  { contentTypeStatus := ContentTypeStatus.matches, recordedHTML := [], outBytes := [],
    cspNonce := [], hasSeenClosingHead := false }

/-- A line holding a self-closing CSP meta tag whose content attribute value
contains `default-src`. -/
def lineSelfClose : List Char :=
  str "<meta http-equiv=\"content-security-policy\" content=\"default-src 'self'\" />"

/-- Header fields of a non-upgrade response carrying a CSP header and a
Content-Length. -/
def hdrEx : RespHeaders :=
  { csp := str "default-src 'a'", upgrade := [], hasContentLength := true }

/-- Header fields of a non-upgrade response whose CSP header value is only
whitespace. -/
def hdrWhite : RespHeaders :=
  { csp := str "   ", upgrade := [], hasContentLength := true }

/-- Environment with marker `</body>` and a readable payload file. -/
def envW5 : Env :=
  { contentTypeHeader := str "text/html", rxMatch := fun _ => true,
    before := str "</body>", injectPath := str "inject.js",
    injectFile := some (str "<script>x()</script>") }

/-- Environment whose content-type regex matches nothing. -/
def envW9 : Env :=
  { contentTypeHeader := str "application/json", rxMatch := fun _ => false,
    before := str "</body>", injectPath := [], injectFile := none }

/-- Writer state already resolved to `noMatch`. -/
def sW9 : IWState :=
  { contentTypeStatus := ContentTypeStatus.noMatch, recordedHTML := [], outBytes := str "pre",
    cspNonce := [], hasSeenClosingHead := false }

theorem prefB_nil (s : List Char) : prefB [] s = true := by
  cases s <;> rfl

theorem prefB_append_of {p q : List Char} (h : prefB p q = true) (r : List Char) :
    prefB p (q ++ r) = true := by
  induction p generalizing q with
  | nil => exact prefB_nil _
  | cons a as ih =>
    cases q with
    | nil => simp [prefB] at h
    | cons b bs =>
      simp only [List.cons_append, prefB, Bool.and_eq_true, beq_iff_eq] at h ⊢
      exact ⟨h.1, ih h.2⟩

theorem prefB_of_append_le {p a b : List Char} (h : prefB p (a ++ b) = true)
    (hl : p.length ≤ a.length) : prefB p a = true := by
  induction p generalizing a with
  | nil => exact prefB_nil _
  | cons x xs ih =>
    cases a with
    | nil => simp at hl
    | cons y ys =>
      simp only [List.cons_append, prefB, Bool.and_eq_true, beq_iff_eq] at h ⊢
      refine ⟨h.1, ih h.2 ?_⟩
      simpa using Nat.le_of_succ_le_succ (by simpa using hl)

theorem prefB_split {p a b : List Char} (h : prefB p (a ++ b) = true)
    (hl : a.length < p.length) :
    List.take a.length p = a ∧ prefB (List.drop a.length p) b = true := by
  induction a generalizing p with
  | nil => exact ⟨rfl, by simpa using h⟩
  | cons y ys ih =>
    cases p with
    | nil => simp at hl
    | cons x xs =>
      simp only [List.cons_append, prefB, Bool.and_eq_true, beq_iff_eq] at h
      have hl' : ys.length < xs.length := by simpa using Nat.lt_of_succ_lt_succ (by simpa using hl)
      have hih := ih h.2 hl'
      refine ⟨?_, ?_⟩
      · simp [List.take, h.1, hih.1]
      · simpa [List.drop] using hih.2

theorem prefB_refl (p : List Char) : prefB p p = true := by
  induction p with
  | nil => rfl
  | cons a as ih => simp [prefB, ih]

theorem suffB_refl (p : List Char) : suffB p p = true := by
  simpa [suffB] using prefB_refl p.reverse

theorem suffB_cons {x t : List Char} (h : suffB x t = true) (c : Char) :
    suffB x (c :: t) = true := by
  unfold suffB at h ⊢
  rw [List.reverse_cons]
  exact prefB_append_of h [c]

theorem prefB_take {p r : List Char} (h : prefB p r = true) :
    List.take p.length r = p := by
  induction p generalizing r with
  | nil => rfl
  | cons a as ih =>
    cases r with
    | nil => simp [prefB] at h
    | cons b bs =>
      simp only [prefB, Bool.and_eq_true, beq_iff_eq] at h
      simp [List.take, ih h.2, h.1]

theorem prefB_append_drop {p r : List Char} (h : prefB p r = true) :
    p ++ List.drop p.length r = r := by
  induction p generalizing r with
  | nil => rfl
  | cons a as ih =>
    cases r with
    | nil => simp [prefB] at h
    | cons b bs =>
      simp only [prefB, Bool.and_eq_true, beq_iff_eq] at h
      simp [List.drop, h.1, ih h.2]

theorem goContains_cons (c : Char) (t pat : List Char) :
    goContains (c :: t) pat = (prefB pat (c :: t) || goContains t pat) := by
  simp only [goContains, firstIndex]
  by_cases h : prefB pat (c :: t) = true
  · simp [h]
  · have h' : prefB pat (c :: t) = false := by simpa using h
    cases hfi : firstIndex t pat <;> simp [h', hfi]

theorem goContains_of_prefB {pat s : List Char} (h : prefB pat s = true) :
    goContains s pat = true := by
  cases s with
  | nil => simp [goContains, firstIndex, h]
  | cons c t => simp [goContains_cons, h]

theorem goContains_cons_of {t pat : List Char} (h : goContains t pat = true) (c : Char) :
    goContains (c :: t) pat = true := by
  simp [goContains_cons, h]

theorem goContains_exists {s pat : List Char} (h : goContains s pat = true) :
    ∃ i, firstIndex s pat = some i := by
  unfold goContains at h
  exact Option.isSome_iff_exists.mp h

theorem firstIndex_prefB {s pat : List Char} :
    ∀ {i : Nat}, firstIndex s pat = some i → prefB pat (List.drop i s) = true := by
  induction s with
  | nil =>
    intro i h
    simp only [firstIndex] at h
    by_cases hp : prefB pat ([] : List Char) = true
    · rw [if_pos hp] at h
      cases h
      simpa using hp
    · rw [if_neg hp] at h
      cases h
  | cons c t ih =>
    intro i h
    simp only [firstIndex] at h
    by_cases hp : prefB pat (c :: t) = true
    · rw [if_pos hp] at h
      cases h
      simpa using hp
    · rw [if_neg hp] at h
      cases hfi : firstIndex t pat with
      | none => rw [hfi] at h; cases h
      | some j =>
        rw [hfi] at h
        simp only [Option.map_some'] at h
        cases h
        simpa [List.drop] using ih hfi

theorem take_add_occ {s pat : List Char} {i : Nat} (h : firstIndex s pat = some i) :
    List.take (i + pat.length) s = List.take i s ++ pat := by
  have hp := firstIndex_prefB h
  rw [List.take_add]
  congr 1
  exact prefB_take hp

theorem drop_occ {s pat : List Char} {i : Nat} (h : firstIndex s pat = some i) :
    pat ++ List.drop (i + pat.length) s = List.drop i s := by
  have hp := firstIndex_prefB h
  have h2 := prefB_append_drop hp
  rw [List.drop_drop] at h2
  simpa [Nat.add_comm] using h2

theorem goReplace1_occ {s old : List Char} {i : Nat} (h : firstIndex s old = some i)
    (new : List Char) :
    goReplace1 s old new = List.take i s ++ new ++ List.drop (i + old.length) s := by
  unfold goReplace1
  rw [h]

theorem goContains_append_cases (pat a b : List Char)
    (h : goContains (a ++ b) pat = true) :
    goContains a pat = true ∨ goContains b pat = true ∨
      ∃ k, 0 < k ∧ k < pat.length ∧ suffB (List.take k pat) a = true ∧
        prefB (List.drop k pat) b = true := by
  induction a with
  | nil => exact Or.inr (Or.inl (by simpa using h))
  | cons c a' ih =>
    rw [List.cons_append, goContains_cons] at h
    rcases Bool.or_eq_true _ _ |>.mp h with hp | hc
    · have hp' : prefB pat ((c :: a') ++ b) = true := by rwa [List.cons_append]
      by_cases hl : pat.length ≤ (c :: a').length
      · exact Or.inl (goContains_of_prefB (prefB_of_append_le hp' hl))
      · have hl' : (c :: a').length < pat.length := Nat.lt_of_not_le hl
        obtain ⟨ht, hd⟩ := prefB_split hp' hl'
        refine Or.inr (Or.inr ⟨(c :: a').length, by simp, hl', ?_, hd⟩)
        rw [ht]
        exact suffB_refl _
    · rcases ih hc with h1 | h1 | ⟨k, hk0, hk1, hs, hpp⟩
      · exact Or.inl (goContains_cons_of h1 c)
      · exact Or.inr (Or.inl h1)
      · exact Or.inr (Or.inr ⟨k, hk0, hk1, suffB_cons hs c, hpp⟩)

theorem goContains_append_false (pat a b : List Char)
    (ha : goContains a pat = false) (hb : goContains b pat = false)
    (hspan : ∀ k, k < pat.length → 0 < k →
      suffB (List.take k pat) a = false ∨ prefB (List.drop k pat) b = false) :
    goContains (a ++ b) pat = false := by
  rcases Bool.eq_false_or_eq_true (goContains (a ++ b) pat) with h | h
  swap
  · exact h
  · exfalso
    rcases goContains_append_cases pat a b h with h1 | h1 | ⟨k, hk0, hk1, hs, hp⟩
    · rw [ha] at h1; cases h1
    · rw [hb] at h1; cases h1
    · rcases hspan k hk1 hk0 with hx | hx
      · rw [hs] at hx; cases hx
      · rw [hp] at hx; cases hx

/-- A policy with no occurrence of `name ++ " "` has an empty extracted
directive value. -/
theorem extract_of_not_contains {csp name : List Char}
    (h : goContains csp (name ++ str " ") = false) :
    extractValueForDirective csp name = [] := by
  unfold extractValueForDirective
  simp [h]

/-- A three-part concatenation contains no occurrence of `pat` when the two
closed ends contain none, the middle contains none, no nonempty proper
piece of `pat` is a final segment of the left end, and no nonempty proper
remainder of `pat` is an initial segment of the right end. -/
theorem goContains_three_append_false (P csp A pat : List Char)
    (hP : goContains P pat = false) (hcsp : goContains csp pat = false)
    (hA : goContains A pat = false)
    (hspanP : ∀ k, k < pat.length → 0 < k → suffB (List.take k pat) P = false)
    (hspanA : ∀ k, k < pat.length → 0 < k → prefB (List.drop k pat) A = false) :
    goContains ((P ++ csp) ++ A) pat = false := by
  apply goContains_append_false
  · apply goContains_append_false pat P csp hP hcsp
    intro k hk hk0
    exact Or.inl (hspanP k hk hk0)
  · exact hA
  · intro k hk hk0
    exact Or.inr (hspanA k hk hk0)

/-- The length of a concatenation is the sum of the lengths. -/
theorem joinAll_length (ws : List (List Char)) :
    (joinAll ws).length = (ws.map List.length).sum := by
  induction ws with
  | nil => rfl
  | cons w ws ih => simp [joinAll, ih]

/-- A write that fits under the cap is buffered into the recorder body. -/
theorem csrWrite_buffered {cap : Nat} {c : CSRState} {b : List Char}
    (h1 : c.overflowed = false) (h2 : b.length + c.recBody.length ≤ cap) :
    csrWrite cap c b = { c with recBody := c.recBody ++ b } := by
  have h3 : ¬ (b.length + c.recBody.length > cap) := Nat.not_lt.mpr h2
  simp [csrWrite, h1, h3]

/-- After overflow a write only appends a direct chunk to the wrapped
writer. -/
theorem csrWrite_after_overflow {cap : Nat} {c : CSRState} {b : List Char}
    (h : c.overflowed = true) :
    csrWrite cap c b = { c with outEvts := c.outEvts ++ [OutEvt.chunk b] } := by
  simp [csrWrite, h]

/-- A sequence of writes whose total size fits under the cap is entirely
buffered. -/
theorem csrRun_buffered {cap : Nat} (ws : List (List Char)) :
    ∀ c : CSRState, c.overflowed = false →
      c.recBody.length + (ws.map List.length).sum ≤ cap →
      csrRun cap c ws = { c with recBody := c.recBody ++ joinAll ws } := by
  induction ws with
  | nil =>
    intro c h1 h2
    simp [csrRun, joinAll]
  | cons w ws ih =>
    intro c h1 h2
    simp only [List.map_cons, List.sum_cons] at h2
    have hw : w.length + c.recBody.length ≤ cap := by omega
    have h2' : (c.recBody ++ w).length + (ws.map List.length).sum ≤ cap := by
      simp only [List.length_append]
      omega
    have hrest := ih { c with recBody := c.recBody ++ w } h1 h2'
    simp only [csrRun, List.foldl_cons] at hrest ⊢
    rw [csrWrite_buffered h1 hw, hrest]
    simp [joinAll, List.append_assoc]

/-- After overflow every write is forwarded directly, in order. -/
theorem csrRun_after_overflow {cap : Nat} (ws : List (List Char)) :
    ∀ c : CSRState, c.overflowed = true →
      csrRun cap c ws = { c with outEvts := c.outEvts ++ ws.map OutEvt.chunk } := by
  induction ws with
  | nil =>
    intro c h
    simp [csrRun]
  | cons w ws ih =>
    intro c h
    have hrest := ih { c with outEvts := c.outEvts ++ [OutEvt.chunk w] } h
    simp only [csrRun, List.foldl_cons] at hrest ⊢
    rw [csrWrite_after_overflow h, hrest]
    simp [List.append_assoc]

/-- C1: the claim states that the lines handed to the handlers by
`InjectedWriter.Write`, followed by the fragment `Flush` forwards, always
equal the newline split of the concatenated input.  Evaluating the code at
the failing input — `Write("x\n")` then `Write("y\n")` — shows the loop
also processes the empty element after each trailing newline: the handled
line sequence is `x`, ``, `y`, `` while the split of the concatenation is
`x`, `y`, ``, and the writer forwards `"x\n\ny\n\n"` for the input
`"x\ny\n"`. -/
theorem c1_code_eval :
    emitRun [str "x\n", str "y\n"] = ([str "x", [], str "y", []], []) ∧
    goSplit (str "x\n" ++ str "y\n") (str "\n") = [str "x", str "y", []] ∧
    (emitRun [str "x\n", str "y\n"]).1 ≠ goSplit (str "x\n" ++ str "y\n") (str "\n") ∧
    (List.foldl (writeStep envC1) s0C1 [str "x\n", str "y\n"]).outBytes =
      str "x\n\ny\n\n" := by
  refine ⟨by decide, by decide, by decide, by decide⟩

/-- C4: the claim states that a meta CSP tag whose content value contains
`default-src` is rewritten.  Evaluating the code at the failing input — a
self-closing tag terminated by `/>` — shows `handleCSPForLine` returns the
line unchanged: the `switch endIndex` has no case for `endIndexSlashClose`,
so its `default: fallthrough` branch runs the `case -1` body and returns
the line. -/
theorem c4_code_eval :
    handleCSPForLine (str "N") false lineSelfClose = (lineSelfClose, false) ∧
    goContains (goToLower lineSelfClose) metaCSPPat = true ∧
    goContains lineSelfClose (str "default-src") = true := by
  refine ⟨by decide, by decide, by decide⟩

/-- C10: when no nonce was generated (`cspNonce` empty), `handleCSPForLine`
returns every line unchanged and leaves the `hasSeenClosingHead` latch
untouched, regardless of the line's content. -/
theorem c10_nonce_empty_identity (hasSeenClosingHead : Bool) (line : List Char) :
    handleCSPForLine [] hasSeenClosingHead line = (line, hasSeenClosingHead) := by
  simp [handleCSPForLine]

/-- C9: once `contentTypeStatus` is `noMatch` it stays `noMatch` for every
further `Write`, each write's bytes are forwarded to the original writer
unmodified, and `RecordedHTML` is not appended to: the final state differs
from the initial one only by the concatenated input appended to the
forwarded bytes. -/
theorem c9_no_match_permanent (env : Env) (s : IWState)
    (h : s.contentTypeStatus = ContentTypeStatus.noMatch) (ws : List (List Char)) :
    List.foldl (writeStep env) s ws = { s with outBytes := s.outBytes ++ joinAll ws } := by
  induction ws generalizing s with
  | nil => simp [joinAll]
  | cons w ws ih =>
    have hstep : writeStep env s w = { s with outBytes := s.outBytes ++ w } := by
      simp [writeStep, h]
    rw [List.foldl_cons, hstep, ih { s with outBytes := s.outBytes ++ w } (by simp [h])]
    simp [joinAll, List.append_assoc]

/-- Witness for C9 at a concrete no-match state and two writes. -/
theorem c9_witness :
    List.foldl (writeStep envW9) sW9 [str "ab", str "c"] =
      { sW9 with outBytes := sW9.outBytes ++ joinAll [str "ab", str "c"] } :=
  c9_no_match_permanent envW9 sW9 rfl [str "ab", str "c"]

/-- C8: `HandleCSP` rewrites the header and installs the fresh nonce exactly
when the CSP header value is nonempty after trimming whitespace; a
whitespace-only (or empty) value leaves the header unchanged and the
`cspNonce` field empty. -/
theorem c8_handle_csp_gate (freshNonce : List Char) (h : RespHeaders) :
    ((goTrimSpace h.csp).length = 0 → HandleCSPfn freshNonce h [] = (h, [])) ∧
    ((goTrimSpace h.csp).length ≠ 0 →
      HandleCSPfn freshNonce h [] =
        ({ h with csp := transformCSP freshNonce h.csp }, freshNonce)) := by
  constructor
  · intro hx
    simp [HandleCSPfn, hx]
  · intro hx
    simp [HandleCSPfn, hx]

/-- Witness for C8 at a whitespace-only CSP header. -/
theorem c8_witness : HandleCSPfn (str "N") hdrWhite [] = (hdrWhite, []) :=
  (c8_handle_csp_gate (str "N") hdrWhite).1 (by decide)

/-- C6, counterexample: status 404 lies outside the 2xx–3xx range and the
response is no upgrade, yet `WriteHeader` does not bypass — it removes the
Content-Length, generates the nonce and rewrites the CSP header. -/
theorem c6_counterexample :
    hdrEx.upgrade = [] ∧
    (WriteHeaderFn (str "N") hdrEx [] 404).1.hasContentLength = false ∧
    hdrEx.hasContentLength = true ∧
    (WriteHeaderFn (str "N") hdrEx [] 404).2.1 = str "N" ∧
    (WriteHeaderFn (str "N") hdrEx [] 404).1.csp ≠ hdrEx.csp := by
  refine ⟨by decide, by decide, by decide, by decide, by decide⟩

/-- C6 (amended): `WriteHeader` bypasses all rewriting — status forwarded
unmodified, headers and `cspNonce` untouched — exactly for protocol
upgrades (nonempty `upgrade` header) or status codes outside the 2xx–5xx
range, i.e. below 200 or at least 600. -/
theorem c6_amended (freshNonce : List Char) (h : RespHeaders) (cspNonce : List Char)
    (code : Nat) (hcond : code < 200 ∨ 600 ≤ code ∨ h.upgrade ≠ []) :
    WriteHeaderFn freshNonce h cspNonce code = (h, cspNonce, code) := by
  unfold WriteHeaderFn
  rw [if_pos]
  rcases hcond with h1 | h1 | h1
  · exact Or.inl h1
  · exact Or.inr (Or.inl h1)
  · refine Or.inr (Or.inr ?_)
    simp [ShouldBypassForResponse, List.length_pos, h1]

/-- Witness for C6 (amended) at status 101. -/
theorem c6_amended_witness :
    WriteHeaderFn (str "N") hdrWhite [] 101 = (hdrWhite, [], 101) :=
  c6_amended (str "N") hdrWhite [] 101 (Or.inl (by decide))

/-- C3: when `script-src ` occurs in the policy and the extracted script-src
value does not declare `'unsafe-inline'`, the rewriting block inserts
`'nonce-<token>' 'unsafe-inline'` immediately after the first occurrence of
the directive name, leaving the text before and after the insertion point —
in particular every existing source — unchanged; and `transformCSP` maps
`default-src 'self'; script-src 'self'` to a policy whose script-src holds
`'self'`, the nonce and `'unsafe-inline'`, with `default-src` unchanged. -/
theorem c3_script_src_insertion :
    (∀ csp cspNonce defaultSrc : List Char,
      goContains csp (str "script-src ") = true →
      goContains (extractValueForDirective csp (str "script-src"))
        (str "'unsafe-inline'") = false →
      ∃ i, firstIndex csp (str "script-src ") = some i ∧
        handleSrcDirective (str "script-src") cspNonce defaultSrc csp =
          List.take (i + (str "script-src ").length) csp ++
            cspSrcArg cspNonce ++ str " " ++
            List.drop (i + (str "script-src ").length) csp) ∧
    transformCSP (str "N") (str "default-src 'self'; script-src 'self'") =
      str "default-src 'self'; script-src 'nonce-N' 'unsafe-inline' 'self'; style-src 'self' 'nonce-N' 'unsafe-inline'" := by
  constructor
  · intro csp cspNonce defaultSrc h1 h2
    obtain ⟨i, hi⟩ := goContains_exists h1
    refine ⟨i, hi, ?_⟩
    have ecat : str "script-src" ++ str " " = str "script-src " := by decide
    unfold handleSrcDirective
    simp only [ecat]
    rw [if_pos h1, if_pos (by simp [h2]), goReplace1_occ hi, take_add_occ hi]
    simp [List.append_assoc]
  · decide

/-- Witness for C3 at a concrete policy. -/
theorem c3_witness :
    ∃ i, firstIndex (str "a; script-src 'self'") (str "script-src ") = some i ∧
      handleSrcDirective (str "script-src") (str "N") (str "'x'")
          (str "a; script-src 'self'") =
        List.take (i + (str "script-src ").length) (str "a; script-src 'self'") ++
          cspSrcArg (str "N") ++ str " " ++
          List.drop (i + (str "script-src ").length) (str "a; script-src 'self'") :=
  c3_script_src_insertion.1 (str "a; script-src 'self'") (str "N") (str "'x'")
    (by decide) (by decide)

/-- C5: when a line contains the configured marker, `HandleLine` splices the
(nonce-processed) payload immediately before the first occurrence of the
marker, leaving all content before and after that occurrence unchanged; and
when reading the payload file fails, `HandleLine` returns the original line
together with a `nil` error. -/
theorem c5_handle_line (env : Env) (cspNonce line payload : List Char)
    (hpath : env.injectPath ≠ [])
    (hmark : goContains line env.before = true) :
    (env.injectFile = some payload →
      ∃ i, firstIndex line env.before = some i ∧
        HandleLine env cspNonce line =
          (List.take i line ++ HandleCSPForText cspNonce payload ++ List.drop i line,
            none)) ∧
    (env.injectFile = none → HandleLine env cspNonce line = (line, none)) := by
  have hlen : ¬ env.injectPath.length = 0 := by
    simpa [List.length_eq_zero] using hpath
  constructor
  · intro hfile
    obtain ⟨i, hi⟩ := goContains_exists hmark
    refine ⟨i, hi, ?_⟩
    unfold HandleLine textToInject
    rw [hfile, if_pos hmark, if_neg hlen]
    simp only []
    rw [goReplace1_occ hi]
    have hdrop := drop_occ hi
    simp only [List.append_assoc]
    rw [hdrop]
    simp
  · intro hfile
    unfold HandleLine textToInject
    rw [hfile, if_pos hmark, if_neg hlen]
    simp

/-- Witness for C5: the marker is found and the payload spliced before it. -/
theorem c5_witness :
    ∃ i, firstIndex (str "hello</body>tail") envW5.before = some i ∧
      HandleLine envW5 [] (str "hello</body>tail") =
        (List.take i (str "hello</body>tail") ++
          HandleCSPForText [] (str "<script>x()</script>") ++
          List.drop i (str "hello</body>tail"), none) :=
  (c5_handle_line envW5 [] (str "hello</body>tail") (str "<script>x()</script>")
    (by decide) (by decide)).1 rfl

/-- C2, counterexample: for a CSP containing none of `default-src`,
`script-src`, `style-src`, the synthesized `default-src` is prepended, but
the appended `script-src` and `style-src` directives reference only the
synthesized value and carry no nonce token at all — the code skips the
nonce because the synthesized default contains `'unsafe-inline'` — so the
claim that both appended directives reference the default value plus the
nonce token fails. -/
theorem c2_counterexample :
    transformCSP (str "N") (str "img-src 'none'") =
      str "default-src 'self' https: data: blob: 'unsafe-eval' 'unsafe-inline'; img-src 'none'; script-src 'self' https: data: blob: 'unsafe-eval' 'unsafe-inline' ; style-src 'self' https: data: blob: 'unsafe-eval' 'unsafe-inline' " ∧
    goContains (transformCSP (str "N") (str "img-src 'none'")) (str "nonce") = false := by
  refine ⟨by decide, by decide⟩

/-- C2 (amended): for every CSP containing none of the directives
`default-src `, `script-src `, `style-src ` and every nonce, `transformCSP`
first prepends the synthesized `default-src <value>; ` (value: self + https
+ data/blob + unsafe-eval + unsafe-inline) and then appends a `script-src`
and a `style-src` directive that reference the synthesized default-src
value but omit the nonce token (the synthesized value contains
`'unsafe-inline'`, which makes the code skip the nonce). -/
theorem c2_amended (cspNonce csp : List Char)
    (h1 : goContains csp (str "default-src ") = false)
    (h2 : goContains csp (str "script-src ") = false)
    (h3 : goContains csp (str "style-src ") = false) :
    transformCSP cspNonce csp =
      str "default-src " ++ defaultSrcSynth ++ str "; " ++ csp ++
        str "; " ++ str "script-src" ++ str " " ++ defaultSrcSynth ++ str " " ++
        str "; " ++ str "style-src" ++ str " " ++ defaultSrcSynth ++ str " " := by
  have ed : str "default-src" ++ str " " = str "default-src " := by decide
  have esc : str "script-src" ++ str " " = str "script-src " := by decide
  have est : str "style-src" ++ str " " = str "style-src " := by decide
  have hfin : goContains defaultSrcSynth (str "'unsafe-inline'") = true := by decide
  have hd : extractValueForDirective csp (str "default-src") = [] := by
    apply extract_of_not_contains
    rw [ed]
    exact h1
  have hsc : goContains (str "default-src " ++ defaultSrcSynth ++ str "; " ++ csp)
      (str "script-src ") = false := by
    have h := goContains_append_false (str "script-src ")
      (str "default-src " ++ defaultSrcSynth ++ str "; ") csp (by decide) h2
      (fun k hk hk0 => Or.inl
        ((by decide :
          ∀ k, k < (str "script-src ").length → 0 < k →
            suffB (List.take k (str "script-src "))
              (str "default-src " ++ defaultSrcSynth ++ str "; ") = false) k hk hk0))
    simpa using h
  have hst : goContains
      (str "default-src " ++ defaultSrcSynth ++ str "; " ++ csp ++
        str "; " ++ str "script-src" ++ str " " ++ defaultSrcSynth ++ str " ")
      (str "style-src ") = false := by
    have h := goContains_three_append_false
      (str "default-src " ++ defaultSrcSynth ++ str "; ") csp
      (str "; " ++ str "script-src" ++ str " " ++ defaultSrcSynth ++ str " ")
      (str "style-src ") (by decide) h3 (by decide)
      (fun k hk hk0 =>
        (by decide :
          ∀ k, k < (str "style-src ").length → 0 < k →
            suffB (List.take k (str "style-src "))
              (str "default-src " ++ defaultSrcSynth ++ str "; ") = false) k hk hk0)
      (fun k hk hk0 =>
        (by decide :
          ∀ k, k < (str "style-src ").length → 0 < k →
            prefB (List.drop k (str "style-src "))
              (str "; " ++ str "script-src" ++ str " " ++ defaultSrcSynth ++ str " ") =
                false) k hk hk0)
    simpa using h
  have hsd1 : handleSrcDirective (str "script-src") cspNonce defaultSrcSynth
      (str "default-src " ++ defaultSrcSynth ++ str "; " ++ csp) =
      str "default-src " ++ defaultSrcSynth ++ str "; " ++ csp ++
        str "; " ++ str "script-src" ++ str " " ++ defaultSrcSynth ++ str " " := by
    unfold handleSrcDirective
    rw [esc, if_neg (by simp only [hsc]; decide)]
    simp [hfin, List.append_assoc]
  have hsd2 : handleSrcDirective (str "style-src") cspNonce defaultSrcSynth
      (str "default-src " ++ defaultSrcSynth ++ str "; " ++ csp ++
        str "; " ++ str "script-src" ++ str " " ++ defaultSrcSynth ++ str " ") =
      str "default-src " ++ defaultSrcSynth ++ str "; " ++ csp ++
        str "; " ++ str "script-src" ++ str " " ++ defaultSrcSynth ++ str " " ++
        str "; " ++ str "style-src" ++ str " " ++ defaultSrcSynth ++ str " " := by
    unfold handleSrcDirective
    rw [est, if_neg (by simp only [hst]; decide)]
    simp [hfin, List.append_assoc]
  have hmain : transformCSP cspNonce csp =
      handleSrcDirective (str "style-src") cspNonce defaultSrcSynth
        (handleSrcDirective (str "script-src") cspNonce defaultSrcSynth
          (str "default-src " ++ defaultSrcSynth ++ str "; " ++ csp)) := by
    unfold transformCSP
    rw [hd]
    rfl
  rw [hmain, hsd1, hsd2]

/-- Witness for C2 (amended) at a concrete directive-free policy. -/
theorem c2_amended_witness :
    transformCSP (str "N") (str "img-src 'a'") =
      str "default-src " ++ defaultSrcSynth ++ str "; " ++ str "img-src 'a'" ++
        str "; " ++ str "script-src" ++ str " " ++ defaultSrcSynth ++ str " " ++
        str "; " ++ str "style-src" ++ str " " ++ defaultSrcSynth ++ str " " :=
  c2_amended (str "N") (str "img-src 'a'") (by decide) (by decide) (by decide)

/-- C7: with cap `C`, a run of writes that stays at or below `C` is entirely
buffered in the recorder (first conjunct); when write `wK` first pushes the
total above `C`, the recorded status and headers, then the buffered bytes
of the preceding writes (when any), are flushed to the wrapped writer
exactly once, `wK` and every following write are forwarded directly, and
the final state is overflowed with an empty buffer (second conjunct); and
once `overflowed` holds, any further write keeps it set and leaves the
buffer untouched (third conjunct). -/
theorem c7_capped_recorder (cap : Nat) (hs : List (List Char × List Char)) (code : Nat)
    (pre post : List (List Char)) (wK : List Char)
    (h1 : (pre.map List.length).sum ≤ cap)
    (h2 : cap < (pre.map List.length).sum + wK.length) :
    csrRun cap (freshCSR hs code) pre = { freshCSR hs code with recBody := joinAll pre } ∧
    csrRun cap (freshCSR hs code) (pre ++ wK :: post) =
      { overflowed := true, recHeaders := hs, recCode := code, recBody := [],
        outEvts := [OutEvt.hdrs hs code] ++
          (if (joinAll pre).isEmpty then [] else [OutEvt.chunk (joinAll pre)]) ++
          [OutEvt.chunk wK] ++ post.map OutEvt.chunk } ∧
    (∀ (c : CSRState) (b : List Char), c.overflowed = true →
      (csrWrite cap c b).overflowed = true ∧ (csrWrite cap c b).recBody = c.recBody) := by
  have hpre : csrRun cap (freshCSR hs code) pre =
      { freshCSR hs code with recBody := joinAll pre } :=
    csrRun_buffered pre (freshCSR hs code) rfl (by simpa [freshCSR] using h1)
  refine ⟨hpre, ?_, ?_⟩
  · have hsplit : csrRun cap (freshCSR hs code) (pre ++ wK :: post) =
        csrRun cap (csrRun cap (freshCSR hs code) pre) (wK :: post) := by
      simp [csrRun, List.foldl_append]
    have hlen : (joinAll pre).length = (pre.map List.length).sum := joinAll_length pre
    have hcond : wK.length + (joinAll pre).length > cap := by
      rw [hlen]
      omega
    have hov : (csrWrite cap { freshCSR hs code with recBody := joinAll pre } wK).overflowed =
        true := by
      simp [csrWrite, csrFlush, freshCSR, hcond]
    rw [hsplit, hpre]
    simp only [csrRun, List.foldl_cons]
    have hrest := @csrRun_after_overflow cap post
      (csrWrite cap { freshCSR hs code with recBody := joinAll pre } wK) hov
    simp only [csrRun] at hrest
    rw [hrest]
    simp [csrWrite, csrFlush, freshCSR, hcond, List.append_assoc]
  · intro c b h
    constructor <;> simp [csrWrite, h]

/-- Witness for C7 with cap 2, a buffered first write and an overflowing
second write. -/
theorem c7_witness :
    csrRun 2 (freshCSR [] 200) [str "a"] = { freshCSR [] 200 with recBody := joinAll [str "a"] } :=
  (c7_capped_recorder 2 [] 200 [str "a"] [str "d"] (str "bc") (by decide) (by decide)).1

end HtmlInjection
